import Mathlib

/-!
Verification of the CEMI frame codec (knx/cemi/cemi.go, knx/cemi/lbusmon.go).

Bytes are modelled as `Nat` values (a wire byte is `< 256`); byte buffers and
slices as `List Nat`.  Go's `copy(dst, src)` builtin, which copies
`min (len dst) (len src)` elements and keeps `dst`'s length, is modelled by
`goCopy`.  Stateful `Unpack` methods that fill a receiver in place are modelled
as functions from the receiver's prior value and the input to the new value;
the frame-level output parameter `*Message` is modelled as explicit state
(`Option Msg` in, `Option Msg` out).  A Go run-time panic (slice bound beyond
the slice's length) is a distinct result constructor, never a value.
-/

namespace KnxCemi

/-- Go `copy(dst, src)`: the contents of `dst` after the copy.  Exactly
`min dst.length src.length` leading elements are replaced; `dst` keeps its
length. -/
def goCopy (dst src : List Nat) : List Nat :=
  src.take dst.length ++ dst.drop src.length

/-- Go `copy(dst, src)`: the returned element count, `min (len dst) (len src)`. -/
def goCopyCount (dst src : List Nat) : Nat :=
  min dst.length src.length

/-- The seven registered message codes, in source order:
LBusmonIndCode 0x2B, LDataReqCode 0x11, LDataIndCode 0x29, LDataConCode 0x2E,
LRawReqCode 0x10, LRawIndCode 0x2D, LRawConCode 0x2F. -/
def registeredCodes : List Nat := [0x2B, 0x11, 0x29, 0x2E, 0x10, 0x2D, 0x2F]

/-- The six registered codes whose payload variants (`LDataReq`, `LDataCon`,
`LDataInd`, `LRawReq`, `LRawCon`, `LRawInd`) live outside the two source
files; the frame decoder treats them uniformly through the
`messageUnpackable` interface. -/
def registeredOtherCodes : List Nat := [0x11, 0x2E, 0x29, 0x10, 0x2D, 0x2F]

/-- Go's lowercase hexadecimal digit characters, as used by `fmt.Sprintf`. -/
def hexDigit (n : Nat) : Char :=
  if n < 10 then Char.ofNat (48 + n) else Char.ofNat (87 + n)

/-- `fmt.Sprintf("%#x", uint8(v))`: `0x` followed by the minimal lowercase
hexadecimal rendering of the byte value. -/
def goHexUint8 (v : Nat) : String :=
  let b := v % 256
  if b < 16 then "0x" ++ String.mk [hexDigit b]
  else "0x" ++ String.mk [hexDigit (b / 16), hexDigit (b % 16)]

/-- `MessageCode.String` (cemi.go): the `switch` over the seven registered
codes, defaulting to `fmt.Sprintf("%#x", uint8(code))`. -/
def MessageCode.toGoString (code : Nat) : String :=
  if code = 0x2B then "LBusmonInd"
  else if code = 0x11 then "LDataReq"
  else if code = 0x29 then "LDataInd"
  else if code = 0x2E then "LDataCon"
  else if code = 0x2D then "LRawInd"
  else if code = 0x2F then "LRawCon"
  else if code = 0x10 then "LRawReq"
  else goHexUint8 code

/-- `Info` is the additional info segment: a byte sequence. -/
abbrev Info := List Nat

/-- `Info.Size` (cemi.go): `256` when more than 255 bytes are held, else
`1 + len(info)`. -/
def Info.size (info : Info) : Nat :=
  if info.length > 255 then 256 else 1 + info.length

/-- `Info.Pack` (cemi.go): sets `buffer[0]` to `min 255 (len info)`, then
`copy(buffer[1:], info[:buffer[0]])`.  The slice bound is read back from the
buffer, exactly as the source does.  An empty buffer would make `buffer[0] = …`
panic in Go; the claims only involve buffers of at least `Info.size` bytes. -/
def Info.pack (info : Info) (buffer : List Nat) : List Nat :=
  let b1 := buffer.set 0 (if info.length > 255 then 255 else info.length)
  match b1 with
  | [] => []
  | c :: rest => c :: goCopy rest (info.take c)

/-- Result of `Info.Unpack`: a returned error, a Go run-time panic, or
success with the consumed count and the new `Info` value. -/
inductive InfoUnpackResult
  | err
  | panicked
  | ok (n : Nat) (info : Info)
  deriving DecidableEq, Repr

/-- `Info.Unpack` (cemi.go).  `util.Unpack(data, &length)` (modelled from the
spec: the `util` package is outside the two source files; it reads one byte
into the `uint8` target and fails when the input is empty) yields `n = 1` and
the length byte `L`.  When `L > 0` the source evaluates `data[n : n+uint(L)]`;
when fewer than `1 + L` bytes are present this slice bound exceeds the
slice's length (and capacity, for an exactly-sized buffer), a run-time panic.
Otherwise `L` bytes are copied into a fresh buffer and `n = 1 + L`. -/
def Info.unpack (data : List Nat) : InfoUnpackResult :=
  match data with
  | [] => .err
  | l :: rest =>
    if l = 0 then .ok 1 []
    else if rest.length < l then .panicked
    else .ok (1 + l) (rest.take l)

/-- `Info.WriteTo` (cemi.go): the byte sequence written to the sink.
`length := uint8(len(info))` truncates to the low 8 bits, then
`encoding.WriteSome(w, length, []byte(info[:length]))` (modelled from the
spec: `encoding` is outside the two source files; it writes its operands to
the sink in order) emits the length byte and the first `length` bytes. -/
def Info.writeTo (info : Info) : List Nat :=
  (info.length % 256) :: info.take (info.length % 256)

/-- `LBusmonInd` (lbusmon.go): a raw byte sequence payload. -/
abbrev LBusmonInd := List Nat

/-- `LBusmonInd.Unpack` (lbusmon.go): the receiver's new value.  The backing
store grows when shorter than the input but is never shrunk; `copy` then
fills only a prefix, so a longer prior value keeps its stale tail. -/
def LBusmonInd.unpack (prior data : List Nat) : List Nat :=
  let target := if prior.length < data.length then List.replicate data.length 0 else prior
  goCopy target data

/-- `LBusmonInd.Unpack`: the returned consumed count `n = copy(target, data)`. -/
def LBusmonInd.unpackCount (prior data : List Nat) : Nat :=
  let target := if prior.length < data.length then List.replicate data.length 0 else prior
  goCopyCount target data

/-- `LBusmonInd.Unpack`: the returned error, which the source fixes to `nil`
(the named result `err` is never assigned). -/
def LBusmonInd.unpackErr (prior data : List Nat) : Option Unit :=
  none

/-- `UnsupportedMessage.Unpack` (cemi.go): the receiver's new `Data` value.
Same grow-only reuse pattern as `LBusmonInd.unpack`. -/
def UnsupportedMessage.unpackData (priorData data : List Nat) : List Nat :=
  let target := if priorData.length < data.length then List.replicate data.length 0 else priorData
  goCopy target data

/-- `UnsupportedMessage.Unpack`: the returned consumed count. -/
def UnsupportedMessage.unpackCount (priorData data : List Nat) : Nat :=
  let target := if priorData.length < data.length then List.replicate data.length 0 else priorData
  goCopyCount target data

/-- `UnsupportedMessage.Unpack`: the returned error, literally `nil`. -/
def UnsupportedMessage.unpackErr (priorData data : List Nat) : Option Unit :=
  none

/-- A decoded CEMI message.  `lBusmonInd` and `unsupported` are the two
variants whose code is in the source files; `other` stands for the six
`LData*`/`LRaw*` variants defined elsewhere in the repository, carrying an
opaque decoded representation. -/
inductive Msg
  | lBusmonInd (payload : List Nat)
  | other (code : Nat) (payload : List Nat)
  | unsupported (code : Nat) (data : List Nat)
  deriving DecidableEq, Repr

/-- Outcome of a body variant's `Unpack` call: consumed count, failure flag
(`failed = true` models a non-nil returned error) and the decoded value. -/
structure BodyUnpack where
  consumed : Nat
  failed : Bool
  value : List Nat
  deriving DecidableEq, Repr

/-- Outcome of the frame-level `Unpack`: total consumed count, failure flag,
and the state of the caller's `*Message` output after the call. -/
structure UnpackOut where
  consumed : Nat
  failed : Bool
  message : Option Msg
  deriving DecidableEq, Repr

/-- Frame-level `Unpack` (cemi.go), parametrised by `dec`, the `Unpack`
methods of the six body variants defined outside the source files (for code
`c` and remaining bytes `rest`, `dec c rest` is that variant's result).
Reads the code byte via `util.Unpack` (fails on empty input), dispatches on
the `switch`, runs the selected fresh body's `Unpack` on `data[1:]`, and
assigns `*message` only when that returned a nil error; `n + m` is returned
in every case. -/
def Unpack (dec : Nat → List Nat → BodyUnpack) (data : List Nat)
    (message : Option Msg) : UnpackOut :=
  match data with
  | [] => ⟨0, true, message⟩
  | code :: rest =>
    if code = 0x2B then
      ⟨1 + LBusmonInd.unpackCount [] rest, false,
        some (.lBusmonInd (LBusmonInd.unpack [] rest))⟩
    else if code ∈ registeredOtherCodes then
      let r := dec code rest
      if r.failed then ⟨1 + r.consumed, true, message⟩
      else ⟨1 + r.consumed, false, some (.other code r.value)⟩
    else
      ⟨1 + UnsupportedMessage.unpackCount [] rest, false,
        some (.unsupported code (UnsupportedMessage.unpackData [] rest))⟩

/-- `Size` (cemi.go): `1 + message.Size()`.  `Size` of the two in-source
variants is the length of the held bytes; the six out-of-source variants
have no size computable from the source files. -/
def Size : Msg → Option Nat
  | .lBusmonInd p => some (1 + p.length)
  | .other _ _ => none
  | .unsupported _ d => some (1 + d.length)

/-- Frame-level `Pack` (cemi.go): `util.PackSome(buffer, uint8(code), message)`
(modelled from the spec: `util` is outside the source files; it writes the
code byte at offset 0 and has the message pack itself into `buffer[1:]`).
Both in-source variants pack by `copy(buffer[1:], bytes)`; the out-of-source
variants' `Pack` bodies are unknown, hence `none`. -/
def Pack (buffer : List Nat) : Msg → Option (List Nat)
  | .lBusmonInd p =>
    match buffer.set 0 0x2B with
    | [] => none
    | c :: rest => some (c :: goCopy rest p)
  | .other _ _ => none
  | .unsupported code d =>
    match buffer.set 0 (code % 256) with
    | [] => none
    | c :: rest => some (c :: goCopy rest d)

/-- The rendering of a message code as the spec describes it, written
independently of `MessageCode.toGoString` for comparison: the seven
registered codes map to their fixed mnemonics, every other byte value to a
hexadecimal rendering (here computed with `Nat.toDigits`). -/
def specMessageCodeName (code : Nat) : String :=
  if code = 0x2B then "LBusmonInd"
  else if code = 0x11 then "LDataReq"
  else if code = 0x29 then "LDataInd"
  else if code = 0x2E then "LDataCon"
  else if code = 0x10 then "LRawReq"
  else if code = 0x2D then "LRawInd"
  else if code = 0x2F then "LRawCon"
  else "0x" ++ String.mk (Nat.toDigits 16 code)

/-! ### Helper lemmas about the Go `copy` model -/

theorem goCopy_length (dst src : List Nat) : (goCopy dst src).length = dst.length := by
  simp [goCopy]
  omega

theorem goCopy_exact (dst src : List Nat) (h : dst.length = src.length) :
    goCopy dst src = src := by
  have hd : dst.drop src.length = [] := List.drop_eq_nil_of_le (by omega)
  simp [goCopy, h, hd, List.take_length]

theorem goCopy_drop_high (dst src : List Nat) (h : src.length ≤ dst.length) :
    (goCopy dst src).drop src.length = dst.drop src.length := by
  unfold goCopy
  rw [List.take_of_length_le h]
  exact List.drop_left src (dst.drop src.length)

theorem goCopy_drop_ge (dst src : List Nat) (j : Nat) (hle : src.length ≤ dst.length)
    (hj : src.length ≤ j) : (goCopy dst src).drop j = dst.drop j := by
  have hsplit : src.length + (j - src.length) = j := by omega
  calc (goCopy dst src).drop j
      = ((goCopy dst src).drop src.length).drop (j - src.length) := by
        rw [List.drop_drop, hsplit]
    _ = (dst.drop src.length).drop (j - src.length) := by
        rw [goCopy_drop_high dst src hle]
    _ = dst.drop j := by
        rw [List.drop_drop, hsplit]

theorem LBusmonInd.unpack_fresh (data : List Nat) : LBusmonInd.unpack [] data = data := by
  cases data with
  | nil => rfl
  | cons a t =>
    simp [LBusmonInd.unpack, goCopy]

theorem LBusmonInd.unpackCount_fresh_lbusmon (data : List Nat) :
    LBusmonInd.unpackCount [] data = data.length := by
  cases data with
  | nil => rfl
  | cons a t =>
    simp [LBusmonInd.unpackCount, goCopyCount]

theorem UnsupportedMessage.unpackData_fresh (data : List Nat) :
    UnsupportedMessage.unpackData [] data = data := by
  cases data with
  | nil => rfl
  | cons a t =>
    simp [UnsupportedMessage.unpackData, goCopy]

theorem UnsupportedMessage.unpackCount_fresh_unsupported (data : List Nat) :
    UnsupportedMessage.unpackCount [] data = data.length := by
  cases data with
  | nil => rfl
  | cons a t =>
    simp [UnsupportedMessage.unpackCount, goCopyCount]

/-- Reduction of the frame decoder on the monitor tag. -/
theorem Unpack_lbusmon (dec : Nat → List Nat → BodyUnpack) (rest : List Nat)
    (msg0 : Option Msg) :
    Unpack dec (0x2B :: rest) msg0 =
      ⟨1 + rest.length, false, some (.lBusmonInd rest)⟩ := by
  simp [Unpack, LBusmonInd.unpack_fresh, LBusmonInd.unpackCount_fresh_lbusmon]

/-- Reduction of the frame decoder on an unregistered tag. -/
theorem Unpack_unsupported (dec : Nat → List Nat → BodyUnpack) (b : Nat)
    (rest : List Nat) (msg0 : Option Msg) (h : b ∉ registeredCodes) :
    Unpack dec (b :: rest) msg0 =
      ⟨1 + rest.length, false, some (.unsupported b rest)⟩ := by
  simp [registeredCodes] at h
  obtain ⟨h1, h2, h3, h4, h5, h6, h7⟩ := h
  simp [Unpack, registeredOtherCodes, h1, h2, h3, h4, h5, h6, h7,
    UnsupportedMessage.unpackData_fresh, UnsupportedMessage.unpackCount_fresh_unsupported]

/-- Reduction of `Info.pack` on a nonempty buffer. -/
theorem Info.pack_cons (info : Info) (c : Nat) (brest : List Nat) :
    Info.pack info (c :: brest) =
      (if info.length > 255 then 255 else info.length) ::
        goCopy brest (info.take (if info.length > 255 then 255 else info.length)) := by
  simp [Info.pack]

/-! ### The claims -/

/-- C1: the claim says that on an input whose first byte is a length prefix
`L` with fewer than `1 + L` bytes available, `Info.Unpack` returns a decode
error rather than succeeding, panicking, or returning a partial value.  The
code instead evaluates the out-of-range slice `data[1 : 1+L]`, a Go run-time
panic: on `[0x02, 0xAA]` (`L = 2`, one trailing byte) the outcome is a panic,
not a returned error. -/
theorem c1_truncated_info_panics :
    Info.unpack [2, 170] = .panicked ∧ Info.unpack [2, 170] ≠ .err := by
  decide

/-- C2: a frame whose first byte `b` is not one of the seven registered codes
decodes to an `unsupported` message whose code is `b` and whose data is the
remaining bytes, consuming the whole input; `Size` is the input's length and
re-packing into a buffer of that length reproduces the input exactly. -/
theorem c2_unregistered_tag_fidelity (dec : Nat → List Nat → BodyUnpack)
    (b : Nat) (rest : List Nat) (msg0 : Option Msg) (buffer : List Nat)
    (hreg : b ∉ registeredCodes) (hbyte : b < 256)
    (hbuf : buffer.length = (b :: rest).length) :
    Unpack dec (b :: rest) msg0 =
      ⟨(b :: rest).length, false, some (.unsupported b rest)⟩ ∧
    Size (.unsupported b rest) = some (b :: rest).length ∧
    Pack buffer (.unsupported b rest) = some (b :: rest) := by
  refine ⟨?_, by simp [Size, Nat.add_comm], ?_⟩
  · rw [Unpack_unsupported dec b rest msg0 hreg]
    simp [UnpackOut.mk.injEq]
    omega
  · cases buffer with
    | nil =>
      simp only [List.length_nil, List.length_cons] at hbuf
      omega
    | cons c brest =>
      have hb : brest.length = rest.length := by
        simp only [List.length_cons] at hbuf
        omega
      simp [Pack, Nat.mod_eq_of_lt hbyte]
      exact goCopy_exact brest rest hb

theorem c2_unregistered_tag_fidelity_witness :
    (0x42 : Nat) ∉ registeredCodes ∧ (0x42 : Nat) < 256 ∧
    ([0, 0, 0] : List Nat).length = ([0x42, 7, 9] : List Nat).length ∧
    (Unpack (fun _ _ => ⟨0, true, []⟩) [0x42, 7, 9] none =
        ⟨3, false, some (.unsupported 0x42 [7, 9])⟩ ∧
      Size (.unsupported 0x42 [7, 9]) = some 3 ∧
      Pack [0, 0, 0] (.unsupported 0x42 [7, 9]) = some [0x42, 7, 9]) :=
  ⟨by decide, by decide, by decide,
    c2_unregistered_tag_fidelity (fun _ _ => ⟨0, true, []⟩) 0x42 [7, 9] none
      [0, 0, 0] (by decide) (by decide) (by decide)⟩

/-- C3: the claim says `LBusmonInd.Unpack` always yields a payload whose
length equals the input's length, for every receiver state.  On a receiver
still holding the three bytes `[1, 2, 3]`, decoding the one-byte input `[9]`
keeps the stale tail of the old backing store: the result is `[9, 2, 3]` of
length 3, not a value of length 1. -/
theorem c3_stale_tail_on_reuse :
    LBusmonInd.unpack [1, 2, 3] [9] = [9, 2, 3] ∧
    (LBusmonInd.unpack [1, 2, 3] [9]).length ≠ ([9] : List Nat).length := by
  decide

/-- C4: for an `Info` holding more than 255 bytes, `Size` is 256 and `Pack`
into a 256-byte buffer writes a length byte 255 followed by exactly the first
255 data bytes; decoding that output yields the 255-byte truncation. -/
theorem c4_oversized_info_truncation (info : Info) (buffer : List Nat)
    (h : 255 < info.length) (hbuf : buffer.length = 256) :
    Info.size info = 256 ∧
    Info.pack info buffer = 255 :: info.take 255 ∧
    (info.take 255).length = 255 ∧
    Info.unpack (Info.pack info buffer) = .ok 256 (info.take 255) := by
  have htk : (info.take 255).length = 255 := by
    simp [List.length_take]
    omega
  have hpack : Info.pack info buffer = 255 :: info.take 255 := by
    cases buffer with
    | nil =>
      simp only [List.length_nil] at hbuf
      omega
    | cons c brest =>
      have hb : brest.length = 255 := by
        simp only [List.length_cons] at hbuf
        omega
      rw [Info.pack_cons, if_pos h]
      rw [goCopy_exact brest (info.take 255) (by rw [hb, htk])]
  refine ⟨by simp [Info.size, h], hpack, htk, ?_⟩
  rw [hpack]
  simp [Info.unpack, htk, List.take_take]

set_option maxRecDepth 4000 in
theorem c4_oversized_info_truncation_witness :
    255 < (List.replicate 300 7 : List Nat).length ∧
    (List.replicate 256 0 : List Nat).length = 256 ∧
    (Info.size (List.replicate 300 7) = 256 ∧
      Info.pack (List.replicate 300 7) (List.replicate 256 0) =
        255 :: (List.replicate 300 7 : List Nat).take 255 ∧
      ((List.replicate 300 7 : List Nat).take 255).length = 255 ∧
      Info.unpack (Info.pack (List.replicate 300 7) (List.replicate 256 0)) =
        .ok 256 ((List.replicate 300 7 : List Nat).take 255)) :=
  ⟨by simp, by simp,
    c4_oversized_info_truncation (List.replicate 300 7) (List.replicate 256 0)
      (by simp) (by simp)⟩

/-- C5: `Info.WriteTo` writes a length byte equal to the logical length
reduced modulo 256 (wrapping, not clamping), followed by exactly that many
bytes of the sequence. -/
theorem c5_writeTo_wraps_modulo (info : Info) :
    Info.writeTo info = (info.length % 256) :: info.take (info.length % 256) ∧
    (Info.writeTo info).length = 1 + info.length % 256 := by
  refine ⟨rfl, ?_⟩
  simp [Info.writeTo, List.length_take]
  omega

/-- C6: when the payload variant selected by the tag byte fails to decode,
the frame decoder propagates the failure and leaves the caller's output
message exactly as it was; the output is assigned only on success. -/
theorem c6_error_propagation (dec : Nat → List Nat → BodyUnpack)
    (b : Nat) (rest : List Nat) (msg0 : Option Msg)
    (hreg : b ∈ registeredOtherCodes) (hfail : (dec b rest).failed = true) :
    (Unpack dec (b :: rest) msg0).failed = true ∧
    (Unpack dec (b :: rest) msg0).message = msg0 := by
  have hne : b ≠ 0x2B := by
    intro hb
    subst hb
    simp [registeredOtherCodes] at hreg
  simp [Unpack, hne, hreg, hfail]

theorem c6_error_propagation_witness :
    (0x11 : Nat) ∈ registeredOtherCodes ∧
    ((fun (_ : Nat) (_ : List Nat) => (⟨0, true, []⟩ : BodyUnpack)) 0x11 [5]).failed = true ∧
    (Unpack (fun _ _ => ⟨0, true, []⟩) [0x11, 5] (some (.lBusmonInd [1]))).failed = true ∧
    (Unpack (fun _ _ => ⟨0, true, []⟩) [0x11, 5] (some (.lBusmonInd [1]))).message =
      some (.lBusmonInd [1]) :=
  ⟨by decide, rfl,
    c6_error_propagation (fun _ _ => ⟨0, true, []⟩) 0x11 [5]
      (some (.lBusmonInd [1])) (by decide) rfl⟩

/-- C7: round-trip for the monitor variant: packing `lBusmonInd p` into a
buffer of `Size` bytes yields the frame `0x2B :: p`, and decoding that frame
consumes it entirely and returns a message equal to the original. -/
theorem c7_lbusmon_roundtrip (dec : Nat → List Nat → BodyUnpack)
    (p : List Nat) (msg0 : Option Msg) (buffer : List Nat)
    (hbuf : buffer.length = 1 + p.length) :
    Size (.lBusmonInd p) = some (1 + p.length) ∧
    Pack buffer (.lBusmonInd p) = some (0x2B :: p) ∧
    Unpack dec (0x2B :: p) msg0 = ⟨1 + p.length, false, some (.lBusmonInd p)⟩ := by
  refine ⟨by simp [Size], ?_, Unpack_lbusmon dec p msg0⟩
  cases buffer with
  | nil =>
    simp only [List.length_nil, List.length_cons] at hbuf
    omega
  | cons c brest =>
    have hb : brest.length = p.length := by
      simp only [List.length_cons] at hbuf
      omega
    simp [Pack]
    exact goCopy_exact brest p hb

theorem c7_lbusmon_roundtrip_witness :
    ([0, 0, 0, 0] : List Nat).length = 1 + ([1, 2, 3] : List Nat).length ∧
    (Size (.lBusmonInd [1, 2, 3]) = some 4 ∧
      Pack [0, 0, 0, 0] (.lBusmonInd [1, 2, 3]) = some [0x2B, 1, 2, 3] ∧
      Unpack (fun _ _ => ⟨0, true, []⟩) [0x2B, 1, 2, 3] none =
        ⟨4, false, some (.lBusmonInd [1, 2, 3])⟩) :=
  ⟨by decide,
    c7_lbusmon_roundtrip (fun _ _ => ⟨0, true, []⟩) [1, 2, 3] none
      [0, 0, 0, 0] (by decide)⟩

set_option maxRecDepth 40000 in
/-- C8: for every 8-bit value, `MessageCode.String` yields the fixed mnemonic
on the seven registered codes and the hexadecimal rendering of the byte on
every other value, as captured by the independently written
`specMessageCodeName`. -/
theorem c8_string_rendering :
    ∀ code : Nat, code < 256 → MessageCode.toGoString code = specMessageCodeName code := by
  decide

theorem c8_string_rendering_witness :
    (0x42 : Nat) < 256 ∧ MessageCode.toGoString 0x42 = specMessageCodeName 0x42 :=
  ⟨by decide, c8_string_rendering 0x42 (by decide)⟩

/-- C9: the decode operations of the fallback and monitor variants return a
nil error on every input and every receiver state, and a frame of length ≥ 1
whose tag byte selects one of those two variants always decodes
successfully, producing a message. -/
theorem c9_infallible_variants (prior data rest : List Nat)
    (dec : Nat → List Nat → BodyUnpack) (msg0 : Option Msg) (b : Nat)
    (hb : b = 0x2B ∨ b ∉ registeredCodes) :
    LBusmonInd.unpackErr prior data = none ∧
    UnsupportedMessage.unpackErr prior data = none ∧
    (Unpack dec (b :: rest) msg0).failed = false ∧
    (Unpack dec (b :: rest) msg0).message ≠ none := by
  refine ⟨rfl, rfl, ?_⟩
  rcases hb with hb | hb
  · subst hb
    rw [Unpack_lbusmon dec rest msg0]
    simp
  · rw [Unpack_unsupported dec b rest msg0 hb]
    simp

theorem c9_infallible_variants_witness :
    ((0x2B : Nat) = 0x2B ∨ (0x2B : Nat) ∉ registeredCodes) ∧
    (LBusmonInd.unpackErr [1, 2] [3] = none ∧
      UnsupportedMessage.unpackErr [1, 2] [3] = none ∧
      (Unpack (fun _ _ => ⟨0, true, []⟩) [0x2B, 8] none).failed = false ∧
      (Unpack (fun _ _ => ⟨0, true, []⟩) [0x2B, 8] none).message ≠ none) :=
  ⟨Or.inl rfl,
    c9_infallible_variants [1, 2] [3] [8] (fun _ _ => ⟨0, true, []⟩) none 0x2B
      (Or.inl rfl)⟩

/-- C10: `Info.Pack` into a buffer of at least `Info.size` bytes touches only
the first `min 255 (len info) + 1` buffer bytes: the packed buffer keeps its
length and agrees with the original buffer from that index on. -/
theorem c10_pack_frame_effect (info : Info) (buffer : List Nat)
    (h : Info.size info ≤ buffer.length) :
    (Info.pack info buffer).length = buffer.length ∧
    (Info.pack info buffer).drop (min 255 info.length + 1) =
      buffer.drop (min 255 info.length + 1) := by
  have hle : 1 ≤ buffer.length := by
    unfold Info.size at h
    split at h <;> omega
  obtain ⟨c, brest, rfl⟩ : ∃ c brest, buffer = c :: brest := by
    cases buffer with
    | nil => simp at hle
    | cons c brest => exact ⟨c, brest, rfl⟩
  rcases Nat.lt_or_ge 255 info.length with hgt | hle255
  · -- the length byte is the clamp 255
    have hbl : 255 ≤ brest.length := by
      simp only [Info.size, if_pos hgt, List.length_cons] at h
      omega
    have htk : (info.take 255).length = 255 := by
      simp only [List.length_take]
      omega
    rw [Info.pack_cons, if_pos hgt]
    have hmin : min 255 info.length = 255 := by omega
    rw [hmin]
    refine ⟨by simp [goCopy_length], ?_⟩
    rw [List.drop_succ_cons, List.drop_succ_cons]
    exact goCopy_drop_ge brest (info.take 255) 255 (by omega) (by omega)
  · -- the length byte is the full length
    have hif : ¬ (info.length > 255) := by omega
    have hbl : info.length ≤ brest.length := by
      simp only [Info.size, if_neg hif, List.length_cons] at h
      omega
    rw [Info.pack_cons, if_neg hif]
    have hmin : min 255 info.length = info.length := by omega
    rw [hmin]
    refine ⟨by simp [goCopy_length], ?_⟩
    rw [List.drop_succ_cons, List.drop_succ_cons, List.take_length]
    exact goCopy_drop_ge brest info info.length hbl (Nat.le_refl _)

theorem c10_pack_frame_effect_witness :
    Info.size [1, 2] ≤ ([9, 9, 9, 9] : List Nat).length ∧
    ((Info.pack [1, 2] [9, 9, 9, 9]).length = ([9, 9, 9, 9] : List Nat).length ∧
      (Info.pack [1, 2] [9, 9, 9, 9]).drop (min 255 ([1, 2] : List Nat).length + 1) =
        ([9, 9, 9, 9] : List Nat).drop (min 255 ([1, 2] : List Nat).length + 1)) :=
  ⟨by decide, c10_pack_frame_effect [1, 2] [9, 9, 9, 9] (by decide)⟩

end KnxCemi
